import Mathlib

/-!
Verification development for the `BackProjector` component of liblion
(`src/backprojector.h`), a Fourier-space backprojector for cryo-EM
reconstruction.  Machine floating-point scalars (`float`, `DOUBLE`) are
modelled as rationals; complex values as pairs of rationals.  Functions whose
bodies are present in the header are translated directly; functions that are
only declared there are modelled from the design specification and marked as
such in their doc comments.
-/

/-- Complex numbers over ℚ, modelling the `Complex` element type of the
grids (real/imaginary parts are machine doubles, modelled as rationals). -/
abbrev Cq : Type := ℚ × ℚ

/-- Complex conjugation on `Cq`. -/
def Cq.conj (z : Cq) : Cq := (z.1, -z.2)

/-- A logical voxel/frequency index `(kp, ip, jp)` (z, y, x order, as in the
`A3D_ELEM` accessors of the source). -/
abbrev Voxel : Type := ℤ × ℤ × ℤ

/-- Squared radius of a logical frequency, the quantity `kp*kp + ip*ip + jp*jp`
used throughout the source for support tests. -/
def normSq (v : Voxel) : ℤ := v.1 * v.1 + v.2.1 * v.2.1 + v.2.2 * v.2.2

/-- The interpolator selector: the source uses integer constants
`NEAREST_NEIGHBOUR` and `TRILINEAR` (from the projector header); the spec
says `interpolator ∈ {NEAREST, TRILINEAR}`. -/
inductive Interp : Type where
  | NEAREST : Interp
  | TRILINEAR : Interp
deriving DecidableEq, Repr

/-- A 3×3 matrix of machine doubles (`Matrix2D<DOUBLE>`), modelled over ℚ. -/
structure Mat3 : Type where
  a00 : ℚ
  a01 : ℚ
  a02 : ℚ
  a10 : ℚ
  a11 : ℚ
  a12 : ℚ
  a20 : ℚ
  a21 : ℚ
  a22 : ℚ
deriving DecidableEq, Repr

/-- Matrix–vector product `A · (x, y, z)ᵀ`. -/
def Mat3.mulVec (A : Mat3) (v : ℚ × ℚ × ℚ) : ℚ × ℚ × ℚ :=
  (A.a00 * v.1 + A.a01 * v.2.1 + A.a02 * v.2.2,
   A.a10 * v.1 + A.a11 * v.2.1 + A.a12 * v.2.2,
   A.a20 * v.1 + A.a21 * v.2.1 + A.a22 * v.2.2)

/-- Determinant of a 3×3 matrix. -/
def Mat3.det (A : Mat3) : ℚ :=
  A.a00 * (A.a11 * A.a22 - A.a12 * A.a21)
  - A.a01 * (A.a10 * A.a22 - A.a12 * A.a20)
  + A.a02 * (A.a10 * A.a21 - A.a11 * A.a20)

/-- Inverse of a 3×3 matrix via the adjugate (division by a zero determinant
yields the zero matrix, as ℚ division is total). -/
def Mat3.inv (A : Mat3) : Mat3 :=
  let d := A.det
  ⟨(A.a11 * A.a22 - A.a12 * A.a21) / d,
   (A.a02 * A.a21 - A.a01 * A.a22) / d,
   (A.a01 * A.a12 - A.a02 * A.a11) / d,
   (A.a12 * A.a20 - A.a10 * A.a22) / d,
   (A.a00 * A.a22 - A.a02 * A.a20) / d,
   (A.a02 * A.a10 - A.a00 * A.a12) / d,
   (A.a10 * A.a21 - A.a11 * A.a20) / d,
   (A.a01 * A.a20 - A.a00 * A.a21) / d,
   (A.a00 * A.a11 - A.a01 * A.a10) / d⟩

/-- Modelled from the spec: the tabulated FT-blob (`TabFtBlob`, whose class
lives outside this header).  `initialise(radius, alpha, order, nbins)`
precomputes the radial blob profile over `[0, radius]` with `nbins` bins; the
model records the four parameters that determine the table. -/
structure TabFtBlob : Type where
  radius : ℚ
  alpha : ℚ
  order : ℤ
  nbins : ℕ
deriving DecidableEq, Repr

/-- Modelled from the spec: `TabFtBlob::initialise` stores the blob
parameters and bin count that determine the precomputed table. -/
def TabFtBlob.initialise (radius : ℚ) (alpha : ℚ) (order : ℤ) (nbins : ℕ) :
    TabFtBlob :=
  ⟨radius, alpha, order, nbins⟩

/-- The `BackProjector` object: the nine fields inherited from the Fourier
grid base (`Projector`) plus the weight grid, the blob table and the symmetry
list, exactly the fields the source's assignment operator copies.  The
symmetry list is kept as the parsed list of 3×3 matrices (the point-group
parser is external to this header). -/
structure BackProjector : Type where
  data : Voxel → Cq
  ori_size : ℤ
  pad_size : ℤ
  r_max : ℤ
  r_min_nn : ℤ
  interpolator : Interp
  padding_factor : ℤ
  ref_dim : ℤ
  data_dim : ℤ
  weight : Voxel → ℚ
  tab_ftblob : TabFtBlob
  SL : List Mat3

/-- The all-zero complex grid (a fresh `MultidimArray` is empty/zero). -/
def zeroDataGrid : Voxel → Cq := fun _ => ((0 : ℚ), (0 : ℚ))

/-- The all-zero weight grid. -/
def zeroWeightGrid : Voxel → ℚ := fun _ => (0 : ℚ)

/-- The `BackProjector` constructor (source lines 62–90).  The C++ body sets
`ori_size`, `ref_dim`, `data_dim`, reads the symmetry file into `SL` (here:
takes the parsed operator list, since the parser is external), sets
`padding_factor`, `interpolator`, `r_min_nn`, and calls
`tab_ftblob.initialise(_blob_radius * padding_factor, _blob_alpha,
_blob_order, 10000)`.  `data`, `weight`, `pad_size` and `r_max` are left at
their default-constructed values (empty grids; zero stands for the
uninitialised integers). -/
def BackProjector.construct (ori : ℤ) (refDim : ℤ) (symOps : List Mat3)
    (interpolator : Interp) (paddingFactor3d : ℤ) (rMinNN : ℤ)
    (blobOrder : ℤ) (blobRadius : ℚ) (blobAlpha : ℚ) (dataDim : ℤ) :
    BackProjector :=
  { data := zeroDataGrid
    ori_size := ori
    pad_size := 0
    r_max := 0
    r_min_nn := rMinNN
    interpolator := interpolator
    padding_factor := paddingFactor3d
    ref_dim := refDim
    data_dim := dataDim
    weight := zeroWeightGrid
    tab_ftblob :=
      TabFtBlob.initialise (blobRadius * (paddingFactor3d : ℚ)) blobAlpha
        blobOrder 10000
    SL := symOps }

/-- The constructor invoked with all defaulted arguments
(`_interpolator = TRILINEAR, _padding_factor_3d = 2, _r_min_nn = 10,
_blob_order = 0, _blob_radius = 1.9, _blob_alpha = 15, _data_dim = 2`). -/
def BackProjector.constructDefault (ori : ℤ) (refDim : ℤ)
    (symOps : List Mat3) : BackProjector :=
  BackProjector.construct ori refDim symOps Interp.TRILINEAR 2 10 0
    (19 / 10) 15 2

/-- The assignment operator body (source lines 112–132): copies the nine
`Projector` fields and then `weight`, `tab_ftblob`, `SL` from `op`. -/
def BackProjector.assign (_self : BackProjector) (op : BackProjector) :
    BackProjector :=
  { data := op.data
    ori_size := op.ori_size
    pad_size := op.pad_size
    r_max := op.r_max
    r_min_nn := op.r_min_nn
    interpolator := op.interpolator
    padding_factor := op.padding_factor
    ref_dim := op.ref_dim
    data_dim := op.data_dim
    weight := op.weight
    tab_ftblob := op.tab_ftblob
    SL := op.SL }

/-- `operator=` including its aliasing guard `if (&op != this)`: `aliased`
stands for the address equality `&op == this`; when it holds the body is
skipped and the object is returned unchanged. -/
def BackProjector.assignOp (aliased : Bool) (self : BackProjector)
    (op : BackProjector) : BackProjector :=
  if aliased then self else BackProjector.assign self op

/-- The error conditions `set2DFourierTransform` can report (via
`REPORT_ERROR`, which aborts the call and surfaces to the caller). -/
inductive BPError : Type where
  | dimOf3DInputNot3 : BPError
  | dimOf2DInputNot2Nor3 : BPError
deriving DecidableEq, Repr

/-- The call `set2DFourierTransform` dispatches to, carrying the forwarded
arguments.  `Img` abstracts `MultidimArray<Complex>` and `Wt` the optional
`MultidimArray<DOUBLE>` weight map. -/
inductive BPCall (Img Wt : Type) : Type where
  | backrotate2D (img : Img) (A : Mat3) (inv : Bool) (Mweight : Option Wt) :
      BPCall Img Wt
  | backrotate3D (img : Img) (A : Mat3) (inv : Bool) (Mweight : Option Wt) :
      BPCall Img Wt
  | backproject (img : Img) (A : Mat3) (inv : Bool) (Mweight : Option Wt) :
      BPCall Img Wt

/-- `set2DFourierTransform` (source lines 163–188): if the input image is
3-dimensional, require `ref_dim = 3` and back-rotate in 3D; otherwise switch
on `ref_dim`: 2 → `backrotate2D`, 3 → `backproject`, anything else is a
fatal error.  `imgDim` is `img_in.getDim()`. -/
def set2DFourierTransform {Img Wt : Type} (refDim : ℤ) (imgDim : ℤ)
    (imgIn : Img) (A : Mat3) (inv : Bool) (Mweight : Option Wt) :
    Except BPError (BPCall Img Wt) :=
  if imgDim = 3 then
    if refDim ≠ 3 then Except.error BPError.dimOf3DInputNot3
    else Except.ok (BPCall.backrotate3D imgIn A inv Mweight)
  else
    if refDim = 2 then Except.ok (BPCall.backrotate2D imgIn A inv Mweight)
    else if refDim = 3 then Except.ok (BPCall.backproject imgIn A inv Mweight)
    else Except.error BPError.dimOf2DInputNot2Nor3

/-- C1: a 2D input with `ref_dim = 2` dispatches to `backrotate2D`, a 2D
input with `ref_dim = 3` to `backproject`, and a 3D input with `ref_dim = 3`
to `backrotate3D`, each call forwarding `img_in`, `A`, `inv` and the optional
`Mweight` unchanged. -/
theorem set2DFourierTransform_dispatch {Img Wt : Type} (imgIn : Img)
    (A : Mat3) (inv : Bool) (Mweight : Option Wt) :
    set2DFourierTransform 2 2 imgIn A inv Mweight
        = Except.ok (BPCall.backrotate2D imgIn A inv Mweight)
      ∧ set2DFourierTransform 3 2 imgIn A inv Mweight
        = Except.ok (BPCall.backproject imgIn A inv Mweight)
      ∧ set2DFourierTransform 3 3 imgIn A inv Mweight
        = Except.ok (BPCall.backrotate3D imgIn A inv Mweight) := by
  refine ⟨rfl, rfl, rfl⟩

/-- C2: a 3D input with `ref_dim ≠ 3`, and a 2D input with `ref_dim` neither
2 nor 3, make `set2DFourierTransform` report a fatal error to the caller and
dispatch to none of the insertion routines (so no grid is touched). -/
theorem set2DFourierTransform_dim_mismatch {Img Wt : Type} (refDim : ℤ)
    (imgIn : Img) (A : Mat3) (inv : Bool) (Mweight : Option Wt) :
    (refDim ≠ 3 →
      set2DFourierTransform refDim 3 imgIn A inv Mweight
        = Except.error BPError.dimOf3DInputNot3)
    ∧ (refDim ≠ 2 → refDim ≠ 3 →
      set2DFourierTransform refDim 2 imgIn A inv Mweight
        = Except.error BPError.dimOf2DInputNot2Nor3) := by
  constructor
  · intro h
    simp [set2DFourierTransform, h]
  · intro h2 h3
    simp [set2DFourierTransform, h2, h3]

/-- Witness for C2 at `ref_dim = 5`: a 3D input errors, and a 2D input
errors, at that concrete dimension. -/
theorem set2DFourierTransform_dim_mismatch_witness :
    (5 : ℤ) ≠ 3 ∧ (5 : ℤ) ≠ 2
      ∧ set2DFourierTransform 5 3 (0 : ℤ) ⟨1, 0, 0, 0, 1, 0, 0, 0, 1⟩ false
          (none (α := ℤ)) = Except.error BPError.dimOf3DInputNot3
      ∧ set2DFourierTransform 5 2 (0 : ℤ) ⟨1, 0, 0, 0, 1, 0, 0, 0, 1⟩ false
          (none (α := ℤ)) = Except.error BPError.dimOf2DInputNot2Nor3 := by
  refine ⟨by decide, by decide, ?_, ?_⟩
  · exact (set2DFourierTransform_dim_mismatch 5 (0 : ℤ)
      ⟨1, 0, 0, 0, 1, 0, 0, 0, 1⟩ false (none (α := ℤ))).1 (by decide)
  · exact (set2DFourierTransform_dim_mismatch 5 (0 : ℤ)
      ⟨1, 0, 0, 0, 1, 0, 0, 0, 1⟩ false (none (α := ℤ))).2 (by decide)
      (by decide)

/-- C8: the constructor initialises the tabulated FT-blob with first argument
`blob_radius * padding_factor`, then `alpha`, then `order`, and exactly
10000 bins. -/
theorem construct_tab_ftblob (ori refDim : ℤ) (symOps : List Mat3)
    (interp : Interp) (pf rMinNN blobOrder : ℤ) (blobRadius blobAlpha : ℚ)
    (dataDim : ℤ) :
    (BackProjector.construct ori refDim symOps interp pf rMinNN blobOrder
        blobRadius blobAlpha dataDim).tab_ftblob
      = TabFtBlob.initialise (blobRadius * (pf : ℚ)) blobAlpha blobOrder
          10000 := by
  rfl

/-- C9: with the defaulted constructor arguments the interpolator is
`TRILINEAR`. -/
theorem constructDefault_interpolator (ori refDim : ℤ) (symOps : List Mat3) :
    (BackProjector.constructDefault ori refDim symOps).interpolator
      = Interp.TRILINEAR := by
  rfl

/-- C10: self-assignment is a no-op (the aliasing guard returns the object
unchanged), and assignment between distinct objects copies every one of the
twelve fields from the source. -/
theorem assignOp_fields (bp tgt src : BackProjector) :
    BackProjector.assignOp true bp bp = bp
      ∧ (BackProjector.assignOp false tgt src).data = src.data
      ∧ (BackProjector.assignOp false tgt src).ori_size = src.ori_size
      ∧ (BackProjector.assignOp false tgt src).pad_size = src.pad_size
      ∧ (BackProjector.assignOp false tgt src).r_max = src.r_max
      ∧ (BackProjector.assignOp false tgt src).r_min_nn = src.r_min_nn
      ∧ (BackProjector.assignOp false tgt src).interpolator
          = src.interpolator
      ∧ (BackProjector.assignOp false tgt src).padding_factor
          = src.padding_factor
      ∧ (BackProjector.assignOp false tgt src).ref_dim = src.ref_dim
      ∧ (BackProjector.assignOp false tgt src).data_dim = src.data_dim
      ∧ (BackProjector.assignOp false tgt src).weight = src.weight
      ∧ (BackProjector.assignOp false tgt src).tab_ftblob = src.tab_ftblob
      ∧ (BackProjector.assignOp false tgt src).SL = src.SL := by
  refine ⟨rfl, rfl, rfl, rfl, rfl, rfl, rfl, rfl, rfl, rfl, rfl, rfl, rfl⟩

/-- Modelled from the spec: the physical-to-logical frequency map of the
FFTW half-transform layout used by `FOR_ALL_ELEMENTS_IN_FFTW_TRANSFORM`
(the macro lives outside this header); logical frequencies lie in
`[−size/2, size/2)`. -/
def logicalFreq (size : ℕ) (k : ℤ) : ℤ :=
  if 2 * k < (size : ℤ) then k else k - size

/-- Physical index bounds of the FFTW-layout output array with dimensions
`zs × ys × xs` (its x dimension is the half dimension, so `jp = j`). -/
def inFftwBounds (zs ys xs : ℕ) (k i j : ℤ) : Prop :=
  0 ≤ k ∧ k < zs ∧ 0 ≤ i ∧ i < ys ∧ 0 ≤ j ∧ j < xs

instance (zs ys xs : ℕ) (k i j : ℤ) :
    Decidable (inFftwBounds zs ys xs k i j) := by
  unfold inFftwBounds
  infer_instance

/-- Exact numeric conversion `float → double`, on the rational model of
machine reals the identity. -/
def floatToDouble (x : ℚ) : ℚ := x

/-- Numeric conversion `double → float` (a rounding in C++; on the rational
model of machine reals the identity). -/
def doubleToFloat (x : ℚ) : ℚ := x

/-- The spec-side generic decenter (design note: "express once as a generic
gridded-to-FFT-layout copy parameterised by element type and a numeric
conversion"): zero the output, then for every FFTW-layout element whose
logical frequency lies inside `my_rmax2` copy the converted input element. -/
def decenterGeneric {α β : Type} [Zero β] (conv : α → β)
    (Min : ℤ → ℤ → ℤ → α) (zs ys xs : ℕ) (rmax2 : ℤ) : ℤ → ℤ → ℤ → β :=
  fun k i j =>
    if inFftwBounds zs ys xs k i j then
      let kp := logicalFreq zs k
      let ip := logicalFreq ys i
      let jp := j
      if kp * kp + ip * ip + jp * jp ≤ rmax2 then conv (Min kp ip jp) else 0
    else 0

/-- `decenter_fd` (source lines 303–314): `float` input, `double` output;
zeroes `Mout` and copies `(double)A3D_ELEM(Min, kp, ip, jp)` wherever
`kp*kp + ip*ip + jp*jp <= my_rmax2`. -/
def decenter_fd (Min : ℤ → ℤ → ℤ → ℚ) (zs ys xs : ℕ) (rmax2 : ℤ) :
    ℤ → ℤ → ℤ → ℚ :=
  fun k i j =>
    if inFftwBounds zs ys xs k i j then
      let kp := logicalFreq zs k
      let ip := logicalFreq ys i
      let jp := j
      if kp * kp + ip * ip + jp * jp ≤ rmax2 then
        floatToDouble (Min kp ip jp)
      else 0
    else 0

/-- First `decenter_ff` overload (source lines 316–327): `double` input,
`double` output. -/
def decenter_ff_dd (Min : ℤ → ℤ → ℤ → ℚ) (zs ys xs : ℕ) (rmax2 : ℤ) :
    ℤ → ℤ → ℤ → ℚ :=
  fun k i j =>
    if inFftwBounds zs ys xs k i j then
      let kp := logicalFreq zs k
      let ip := logicalFreq ys i
      let jp := j
      if kp * kp + ip * ip + jp * jp ≤ rmax2 then Min kp ip jp else 0
    else 0

/-- Second `decenter_ff` overload (source lines 329–340): `double` input,
`float` output (the assignment narrows to `float`). -/
def decenter_ff_df (Min : ℤ → ℤ → ℤ → ℚ) (zs ys xs : ℕ) (rmax2 : ℤ) :
    ℤ → ℤ → ℤ → ℚ :=
  fun k i j =>
    if inFftwBounds zs ys xs k i j then
      let kp := logicalFreq zs k
      let ip := logicalFreq ys i
      let jp := j
      if kp * kp + ip * ip + jp * jp ≤ rmax2 then
        doubleToFloat (Min kp ip jp)
      else 0
    else 0

/-- `decenter_cc` (source lines 342–353): `Complex` input and output. -/
def decenter_cc (Min : ℤ → ℤ → ℤ → Cq) (zs ys xs : ℕ) (rmax2 : ℤ) :
    ℤ → ℤ → ℤ → Cq :=
  fun k i j =>
    if inFftwBounds zs ys xs k i j then
      let kp := logicalFreq zs k
      let ip := logicalFreq ys i
      let jp := j
      if kp * kp + ip * ip + jp * jp ≤ rmax2 then Min kp ip jp else 0
    else 0

/-- C6: the four decenter helpers are all instances of the one generic
gridded-to-FFTW-layout copy, each under its element-type conversion. -/
theorem decenter_helpers_generic (MinF MinD : ℤ → ℤ → ℤ → ℚ)
    (MinC : ℤ → ℤ → ℤ → Cq) (zs ys xs : ℕ) (rmax2 : ℤ) :
    decenter_fd MinF zs ys xs rmax2
        = decenterGeneric floatToDouble MinF zs ys xs rmax2
      ∧ decenter_ff_dd MinD zs ys xs rmax2
        = decenterGeneric id MinD zs ys xs rmax2
      ∧ decenter_ff_df MinD zs ys xs rmax2
        = decenterGeneric doubleToFloat MinD zs ys xs rmax2
      ∧ decenter_cc MinC zs ys xs rmax2
        = decenterGeneric id MinC zs ys xs rmax2 := by
  refine ⟨rfl, rfl, rfl, rfl⟩

/-- Helper: the generic decenter zeroes every in-bounds element outside the
radius and copies the (converted) input inside it. -/
theorem decenterGeneric_support {α β : Type} [Zero β] (conv : α → β)
    (Min : ℤ → ℤ → ℤ → α) (zs ys xs : ℕ) (rmax2 : ℤ) (k i j : ℤ)
    (hb : inFftwBounds zs ys xs k i j) :
    (rmax2 < logicalFreq zs k * logicalFreq zs k
        + logicalFreq ys i * logicalFreq ys i + j * j →
      decenterGeneric conv Min zs ys xs rmax2 k i j = 0)
    ∧ (logicalFreq zs k * logicalFreq zs k
        + logicalFreq ys i * logicalFreq ys i + j * j ≤ rmax2 →
      decenterGeneric conv Min zs ys xs rmax2 k i j
        = conv (Min (logicalFreq zs k) (logicalFreq ys i) j)) := by
  constructor
  · intro h
    simp only [decenterGeneric, if_pos hb]
    rw [if_neg (by omega)]
  · intro h
    simp only [decenterGeneric, if_pos hb]
    rw [if_pos h]

/-- C7: after any of the four decenter calls, every in-bounds output element
whose logical frequency `(kp, ip, jp)` has `kp² + ip² + jp² > my_rmax2` is
zero, and every one with `kp² + ip² + jp² ≤ my_rmax2` equals the (converted)
input element at that logical frequency. -/
theorem decenter_support (MinF MinD : ℤ → ℤ → ℤ → ℚ)
    (MinC : ℤ → ℤ → ℤ → Cq) (zs ys xs : ℕ) (rmax2 : ℤ) (k i j : ℤ)
    (hb : inFftwBounds zs ys xs k i j) :
    (rmax2 < logicalFreq zs k * logicalFreq zs k
        + logicalFreq ys i * logicalFreq ys i + j * j →
      decenter_fd MinF zs ys xs rmax2 k i j = 0
        ∧ decenter_ff_dd MinD zs ys xs rmax2 k i j = 0
        ∧ decenter_ff_df MinD zs ys xs rmax2 k i j = 0
        ∧ decenter_cc MinC zs ys xs rmax2 k i j = 0)
    ∧ (logicalFreq zs k * logicalFreq zs k
        + logicalFreq ys i * logicalFreq ys i + j * j ≤ rmax2 →
      decenter_fd MinF zs ys xs rmax2 k i j
          = floatToDouble (MinF (logicalFreq zs k) (logicalFreq ys i) j)
        ∧ decenter_ff_dd MinD zs ys xs rmax2 k i j
          = MinD (logicalFreq zs k) (logicalFreq ys i) j
        ∧ decenter_ff_df MinD zs ys xs rmax2 k i j
          = doubleToFloat (MinD (logicalFreq zs k) (logicalFreq ys i) j)
        ∧ decenter_cc MinC zs ys xs rmax2 k i j
          = MinC (logicalFreq zs k) (logicalFreq ys i) j) := by
  constructor
  · intro h
    exact ⟨(decenterGeneric_support floatToDouble MinF zs ys xs rmax2 k i j
        hb).1 h,
      (decenterGeneric_support id MinD zs ys xs rmax2 k i j hb).1 h,
      (decenterGeneric_support doubleToFloat MinD zs ys xs rmax2 k i j
        hb).1 h,
      (decenterGeneric_support id MinC zs ys xs rmax2 k i j hb).1 h⟩
  · intro h
    exact ⟨(decenterGeneric_support floatToDouble MinF zs ys xs rmax2 k i j
        hb).2 h,
      (decenterGeneric_support id MinD zs ys xs rmax2 k i j hb).2 h,
      (decenterGeneric_support doubleToFloat MinD zs ys xs rmax2 k i j
        hb).2 h,
      (decenterGeneric_support id MinC zs ys xs rmax2 k i j hb).2 h⟩

/-- Input grid used by the decenter witness. -/
def witnessGridQ : ℤ → ℤ → ℤ → ℚ := fun k i j => k + 10 * i + 100 * j + 7

/-- Complex input grid used by the decenter witness. -/
def witnessGridC : ℤ → ℤ → ℤ → Cq := fun k i j => (k + 10 * i + 7, 100 * j)

/-- Witness for C7 on a 4×4×3 half-grid with `my_rmax2 = 1`: the element at
physical `(0,0,0)` (logical `(0,0,0)`, inside) is copied, and the element at
physical `(2,0,0)` (logical `(−2,0,0)`, outside) is zeroed, in all four
helpers. -/
theorem decenter_support_witness :
    inFftwBounds 4 4 3 0 0 0 ∧ inFftwBounds 4 4 3 2 0 0
      ∧ (decenter_fd witnessGridQ 4 4 3 1 0 0 0 = witnessGridQ 0 0 0
        ∧ decenter_ff_dd witnessGridQ 4 4 3 1 0 0 0 = witnessGridQ 0 0 0
        ∧ decenter_ff_df witnessGridQ 4 4 3 1 0 0 0 = witnessGridQ 0 0 0
        ∧ decenter_cc witnessGridC 4 4 3 1 0 0 0 = witnessGridC 0 0 0)
      ∧ (decenter_fd witnessGridQ 4 4 3 1 2 0 0 = 0
        ∧ decenter_ff_dd witnessGridQ 4 4 3 1 2 0 0 = 0
        ∧ decenter_ff_df witnessGridQ 4 4 3 1 2 0 0 = 0
        ∧ decenter_cc witnessGridC 4 4 3 1 2 0 0 = 0) := by
  have h0 : inFftwBounds 4 4 3 0 0 0 := by decide
  have h2 : inFftwBounds 4 4 3 2 0 0 := by decide
  refine ⟨h0, h2, ?_, ?_⟩
  · have := (decenter_support witnessGridQ witnessGridQ witnessGridC 4 4 3 1
      0 0 0 h0).2 (by decide)
    simpa [logicalFreq, floatToDouble, doubleToFloat] using this
  · have := (decenter_support witnessGridQ witnessGridQ witnessGridC 4 4 3 1
      2 0 0 h2).1 (by decide)
    simpa using this

/-- Halving of a complex value, used for averaging conjugate partners. -/
def Cq.half (z : Cq) : Cq := (z.1 / 2, z.2 / 2)

/-- Modelled from the spec: `enforceHermitianSymmetry` on the data grid
(only declared in the header).  For every voxel with `jp = 0`, average
`D(kp, ip, 0)` with `conj(D(−kp, −ip, 0))` and write the averaged value back
to both sides of the pair; voxels with `jp ≠ 0` are untouched. -/
def enforceHermitianSymmetryD (D : ℤ → ℤ → ℤ → Cq) : ℤ → ℤ → ℤ → Cq :=
  fun kp ip jp =>
    if jp = 0 then Cq.half (D kp ip 0 + Cq.conj (D (-kp) (-ip) 0))
    else D kp ip jp

/-- Modelled from the spec: `enforceHermitianSymmetry` on the weight grid.
For every voxel with `jp = 0`, average `W(kp, ip, 0)` with `W(−kp, −ip, 0)`
and write the average back to both sides; voxels with `jp ≠ 0` are
untouched. -/
def enforceHermitianSymmetryW (W : ℤ → ℤ → ℤ → ℚ) : ℤ → ℤ → ℤ → ℚ :=
  fun kp ip jp =>
    if jp = 0 then (W kp ip 0 + W (-kp) (-ip) 0) / 2
    else W kp ip jp

/-- C3: after `enforceHermitianSymmetry`, every `jp = 0` pair is Hermitian
(`D(kp,ip,0) = conj(D(−kp,−ip,0))`, equal weights), the written values are
the averages of the two pre-call conjugate partners (for `D`) and of the two
pre-call weights (for `W`), and every voxel with `jp ≠ 0` is unchanged. -/
theorem enforceHermitianSymmetry_closure (D : ℤ → ℤ → ℤ → Cq)
    (W : ℤ → ℤ → ℤ → ℚ) (kp ip jp : ℤ) :
    enforceHermitianSymmetryD D kp ip 0
        = Cq.conj (enforceHermitianSymmetryD D (-kp) (-ip) 0)
      ∧ enforceHermitianSymmetryW W kp ip 0
        = enforceHermitianSymmetryW W (-kp) (-ip) 0
      ∧ enforceHermitianSymmetryD D kp ip 0
        = Cq.half (D kp ip 0 + Cq.conj (D (-kp) (-ip) 0))
      ∧ enforceHermitianSymmetryW W kp ip 0
        = (W kp ip 0 + W (-kp) (-ip) 0) / 2
      ∧ (jp ≠ 0 →
        enforceHermitianSymmetryD D kp ip jp = D kp ip jp
          ∧ enforceHermitianSymmetryW W kp ip jp = W kp ip jp) := by
  refine ⟨?_, ?_, ?_, ?_, ?_⟩
  · simp only [enforceHermitianSymmetryD, if_pos rfl, neg_neg]
    unfold Cq.half Cq.conj
    apply Prod.ext
    · simp [Prod.fst_add]
      ring
    · simp [Prod.snd_add]
      ring
  · simp [enforceHermitianSymmetryW, neg_neg, add_comm]
  · simp [enforceHermitianSymmetryD]
  · simp [enforceHermitianSymmetryW]
  · intro h
    constructor
    · simp [enforceHermitianSymmetryD, h]
    · simp [enforceHermitianSymmetryW, h]

/-- Data grid used by the Hermitian-closure witness. -/
def hermGridD : ℤ → ℤ → ℤ → Cq := fun kp ip jp => (kp + 10 * ip, jp + 3)

/-- Weight grid used by the Hermitian-closure witness. -/
def hermGridW : ℤ → ℤ → ℤ → ℚ := fun kp ip jp => kp * kp + 2 * ip + jp

/-- Witness for C3 at `(kp, ip) = (1, 2)` and `jp = 5 ≠ 0` on concrete
grids: the pair becomes conjugate-closed, the written values are the
averages, and a `jp ≠ 0` voxel is untouched. -/
theorem enforceHermitianSymmetry_closure_witness :
    (5 : ℤ) ≠ 0
      ∧ enforceHermitianSymmetryD hermGridD 1 2 0
        = Cq.conj (enforceHermitianSymmetryD hermGridD (-1) (-2) 0)
      ∧ enforceHermitianSymmetryW hermGridW 1 2 0
        = enforceHermitianSymmetryW hermGridW (-1) (-2) 0
      ∧ enforceHermitianSymmetryD hermGridD 1 2 0
        = Cq.half (hermGridD 1 2 0 + Cq.conj (hermGridD (-1) (-2) 0))
      ∧ enforceHermitianSymmetryW hermGridW 1 2 0
        = (hermGridW 1 2 0 + hermGridW (-1) (-2) 0) / 2
      ∧ enforceHermitianSymmetryD hermGridD 1 2 5 = hermGridD 1 2 5
      ∧ enforceHermitianSymmetryW hermGridW 1 2 5 = hermGridW 1 2 5 := by
  have h := enforceHermitianSymmetry_closure hermGridD hermGridW 1 2 5
  have h5 : (5 : ℤ) ≠ 0 := by decide
  exact ⟨h5, h.1, h.2.1, h.2.2.1, h.2.2.2.1, (h.2.2.2.2 h5).1,
    (h.2.2.2.2 h5).2⟩

/-- A logical voxel as a rational point in `(x, y, z)` order, the column
vector convention `(jp, ip, kp)` the source uses for matrix application. -/
def intVec (v : Voxel) : ℚ × ℚ × ℚ := ((v.2.2 : ℚ), (v.2.1 : ℚ), (v.1 : ℚ))

/-- Corner offsets `(cx, cy, cz)` of the trilinear interpolation cube. -/
def triCorners : List (ℤ × ℤ × ℤ) :=
  [(0, 0, 0), (0, 0, 1), (0, 1, 0), (0, 1, 1),
   (1, 0, 0), (1, 0, 1), (1, 1, 0), (1, 1, 1)]

/-- Trilinear corner weight: `frac` on the far corner, `1 − frac` on the
near one. -/
def cw (d : ℤ) (frac : ℚ) : ℚ := if d = 1 then frac else 1 - frac

/-- A voxel negated in all three coordinates, the Hermitian partner
`(−kp, −ip, −jp)` of a logical frequency. -/
def negV (q : Voxel) : Voxel := (-q.1, -q.2.1, -q.2.2)

/-- A rational point negated in all three coordinates. -/
def pointNeg (t : ℚ × ℚ × ℚ) : ℚ × ℚ × ℚ := (-t.1, -t.2.1, -t.2.2)

/-- Reading a half-grid value at an arbitrary voxel through the Hermitian
fold: a point with negative x (`jp < 0`) is replaced by its partner
`(−kp, −ip, −jp)` and the value conjugated (`conj` is complex conjugation
on the data grid and the identity on the real weight grid). -/
def foldRead {α : Type} (conj : α → α) (f : Voxel → α) (q : Voxel) : α :=
  if q.2.2 < 0 then conj (f (negV q)) else f q

/-- Trilinear interpolation of a half-grid at a rational point `t` in
`(x, y, z)` order: distribute over the 8 surrounding grid points with
weights `(1−dx)(1−dy)(1−dz)` etc., reading every surrounding point with
`jp < 0` through the Hermitian fold, as the trilinear rule prescribes. -/
def triSample {α : Type} [AddCommMonoid α] [Module ℚ α] (conj : α → α)
    (f : Voxel → α) (t : ℚ × ℚ × ℚ) : α :=
  let x0 : ℤ := ⌊t.1⌋
  let fx : ℚ := t.1 - x0
  let y0 : ℤ := ⌊t.2.1⌋
  let fy : ℚ := t.2.1 - y0
  let z0 : ℤ := ⌊t.2.2⌋
  let fz : ℚ := t.2.2 - z0
  (triCorners.map (fun c =>
    (cw c.1 fx * cw c.2.1 fy * cw c.2.2 fz)
      • foldRead conj f (z0 + c.2.2, y0 + c.2.1, x0 + c.1))).sum

/-- Modelled from the spec: `symmetrise` (only declared in the header).  For
each voxel `v` inside `rmax²`, accumulate into the grid the trilinearly
interpolated value at `R·v` for every `R` in the symmetry list `S`
(identity implicit), interpolation following the same trilinear rule with
its Hermitian fold; the final grid at `v` is `(I + Σ R)` applied to the
original grid, and voxels outside `rmax²` are untouched. -/
def symmetrise {α : Type} [AddCommMonoid α] [Module ℚ α] (conj : α → α)
    (S : List Mat3) (rmax2 : ℤ) (f : Voxel → α) : Voxel → α :=
  fun v =>
    if normSq v ≤ rmax2 then
      f v + (S.map (fun R => triSample conj f (R.mulVec (intVec v)))).sum
    else f v

/-- The identity rotation. -/
def idMat : Mat3 := ⟨1, 0, 0, 0, 1, 0, 0, 0, 1⟩

/-- The symmetry list together with the implicit identity. -/
def matAll (S : List Mat3) : List Mat3 := idMat :: S

theorem idMat_mulVec (t : ℚ × ℚ × ℚ) : idMat.mulVec t = t := by
  obtain ⟨x, y, z⟩ := t
  simp [idMat, Mat3.mulVec]

theorem normSq_negV (v : Voxel) : normSq (negV v) = normSq v := by
  simp only [normSq, negV]
  ring

theorem intVec_negV (v : Voxel) : intVec (negV v) = pointNeg (intVec v) := by
  simp only [intVec, negV, pointNeg, Prod.mk.injEq]
  refine ⟨by push_cast; ring, by push_cast; ring, by push_cast; ring⟩

theorem mulVec_pointNeg (A : Mat3) (t : ℚ × ℚ × ℚ) :
    A.mulVec (pointNeg t) = pointNeg (A.mulVec t) := by
  simp only [Mat3.mulVec, pointNeg, Prod.mk.injEq]
  refine ⟨by ring, by ring, by ring⟩

/-- On a Hermitian grid (conjugate-symmetric under voxel negation) the fold
read is plain evaluation. -/
theorem foldRead_hermitian {α : Type} (conj : α → α) (f : Voxel → α)
    (hherm : ∀ v : Voxel, conj (f (negV v)) = f v) (q : Voxel) :
    foldRead conj f q = f q := by
  unfold foldRead
  split
  · exact hherm q
  · rfl

/-- At a lattice point the trilinear interpolation degenerates to a single
fold read (the seven other corners carry weight 0). -/
theorem triSample_lattice {α : Type} [AddCommMonoid α] [Module ℚ α]
    (conj : α → α) (f : Voxel → α) (w : Voxel) :
    triSample conj f (intVec w) = foldRead conj f w := by
  obtain ⟨wz, wy, wx⟩ := w
  simp [triSample, intVec, triCorners, cw, Int.floor_intCast, sub_self]

/-- On a Hermitian grid, trilinear interpolation at a lattice point is
plain evaluation. -/
theorem triSample_herm {α : Type} [AddCommMonoid α] [Module ℚ α]
    (conj : α → α) (f : Voxel → α)
    (hherm : ∀ v : Voxel, conj (f (negV v)) = f v) (w : Voxel) :
    triSample conj f (intVec w) = f w := by
  rw [triSample_lattice, foldRead_hermitian conj f hherm]

theorem symmetrise_inside {α : Type} [AddCommMonoid α] [Module ℚ α]
    (conj : α → α) (S : List Mat3) (rmax2 : ℤ) (f : Voxel → α) (v : Voxel)
    (hherm : ∀ q : Voxel, conj (f (negV q)) = f q)
    (h : normSq v ≤ rmax2) :
    symmetrise conj S rmax2 f v
      = ((matAll S).map
          (fun g => triSample conj f (g.mulVec (intVec v)))).sum := by
  simp [symmetrise, if_pos h, matAll, idMat_mulVec,
    triSample_herm conj f hherm]

theorem sum_map_constant {α β : Type} [AddCommMonoid α] (l : List β)
    (c : α) : (l.map (fun _ => c)).sum = l.length • c := by
  induction l with
  | nil => simp
  | cons b t ih => simp [ih, succ_nsmul, add_comm]

theorem conjListSum {α : Type} [AddCommMonoid α] (conj : α → α)
    (hadd : ∀ x y : α, conj (x + y) = conj x + conj y) (h0 : conj 0 = 0)
    (l : List α) : conj l.sum = (l.map conj).sum := by
  induction l with
  | nil => simpa using h0
  | cons b t ih => simp [hadd, ih]

/-- `symmetrise` preserves the data model's Hermitian invariant: on a
conjugate-symmetric grid, the symmetrised grid is conjugate-symmetric
again, for additive `conj` and lattice-preserving operators. -/
theorem symmetrise_hermitian {α : Type} [AddCommMonoid α] [Module ℚ α]
    (conj : α → α) (S : List Mat3) (rmax2 : ℤ) (f : Voxel → α)
    (hadd : ∀ x y : α, conj (x + y) = conj x + conj y) (h0 : conj 0 = 0)
    (hherm : ∀ v : Voxel, conj (f (negV v)) = f v)
    (hlat : ∀ g ∈ matAll S, ∀ v : Voxel, ∃ w : Voxel,
      g.mulVec (intVec v) = intVec w)
    (w : Voxel) :
    conj (symmetrise conj S rmax2 f (negV w))
      = symmetrise conj S rmax2 f w := by
  by_cases hin : normSq w ≤ rmax2
  · have hinN : normSq (negV w) ≤ rmax2 := by rw [normSq_negV]; exact hin
    simp only [symmetrise, if_pos hin, if_pos hinN]
    rw [hadd, hherm w, conjListSum conj hadd h0, List.map_map]
    congr 1
    refine congrArg List.sum (List.map_congr_left ?_)
    intro R hR
    obtain ⟨wR, hwR⟩ := hlat R (List.mem_cons_of_mem idMat hR) w
    simp only [Function.comp_apply]
    rw [intVec_negV, mulVec_pointNeg, hwR, ← intVec_negV, triSample_lattice,
      triSample_lattice, foldRead_hermitian conj f hherm,
      foldRead_hermitian conj f hherm, hherm]
  · have hinN : ¬ normSq (negV w) ≤ rmax2 := by rw [normSq_negV]; exact hin
    simp only [symmetrise, if_neg hin, if_neg hinN]
    exact hherm w

/-- The 90° rotation about z, `(x, y, z) ↦ (−y, x, z)`, whose pair with the
identity is not closed under composition. -/
def rotZ90 : Mat3 := ⟨0, -1, 0, 1, 0, 0, 0, 0, 1⟩

theorem rotZ90_mulVec (v : Voxel) :
    rotZ90.mulVec (intVec v) = intVec (v.1, v.2.2, -v.2.1) := by
  simp only [rotZ90, Mat3.mulVec, intVec, Prod.mk.injEq]
  refine ⟨by push_cast; ring, by ring, by ring⟩

/-- The grid used to refute C4 as stated: the Hermitian indicator pair of
the voxels `(kp, ip, jp) = (1, 0, 1)` and `(−1, 0, −1)` — conjugate
symmetric under voxel negation and supported inside `rmax² = 2`, as the
data model requires. -/
def fCex : Voxel → ℚ := fun v =>
  if v = ((1 : ℤ), (0 : ℤ), (1 : ℤ)) ∨ v = ((-1 : ℤ), (0 : ℤ), (-1 : ℤ))
  then 1 else 0

theorem fCex_hermitian (v : Voxel) :
    (id : ℚ → ℚ) (fCex (negV v)) = fCex v := by
  obtain ⟨a, b, c⟩ := v
  simp only [id_eq, fCex, negV]
  have hiff : ((-a, -b, -c) = ((1 : ℤ), (0 : ℤ), (1 : ℤ))
        ∨ (-a, -b, -c) = ((-1 : ℤ), (0 : ℤ), (-1 : ℤ)))
      ↔ ((a, b, c) = ((1 : ℤ), (0 : ℤ), (1 : ℤ))
        ∨ (a, b, c) = ((-1 : ℤ), (0 : ℤ), (-1 : ℤ))) := by
    simp only [Prod.mk.injEq]
    omega
  rw [if_congr hiff rfl rfl]

theorem fCex_lattice : ∀ g ∈ matAll [rotZ90], ∀ v : Voxel,
    ∃ w : Voxel, g.mulVec (intVec v) = intVec w := by
  intro g hg v
  rcases (by simpa [matAll] using hg : g = idMat ∨ g = rotZ90) with h | h
  · exact ⟨v, by rw [h, idMat_mulVec]⟩
  · exact ⟨(v.1, v.2.2, -v.2.1), by rw [h, rotZ90_mulVec]⟩

/-- Counterexample to C4 as stated: with the singleton symmetry list
`[rotZ90]` and `rmax² = 2`, applying `symmetrise` twice to the Hermitian
indicator pair gives 1 at voxel `(1, 0, 1)`, while applying it once and
multiplying by `|S| + 1 = 2` gives 2 (the 90° rotation composed with itself
negates x and y but not z, so the fold does not return the orbit to its
start). -/
theorem symmetrise_twice_counterexample :
    symmetrise (id : ℚ → ℚ) [rotZ90] 2 (symmetrise id [rotZ90] 2 fCex)
        ((1 : ℤ), (0 : ℤ), (1 : ℤ))
      ≠ (([rotZ90] : List Mat3).length + 1)
        • symmetrise (id : ℚ → ℚ) [rotZ90] 2 fCex
            ((1 : ℤ), (0 : ℤ), (1 : ℤ)) := by
  have e1 : rotZ90.mulVec (intVec ((1 : ℤ), (0 : ℤ), (1 : ℤ)))
      = intVec ((1 : ℤ), (1 : ℤ), (0 : ℤ)) := by
    simp only [rotZ90, Mat3.mulVec, intVec, Prod.mk.injEq]
    norm_num
  have e2 : rotZ90.mulVec (intVec ((1 : ℤ), (1 : ℤ), (0 : ℤ)))
      = intVec ((1 : ℤ), (0 : ℤ), (-1 : ℤ)) := by
    simp only [rotZ90, Mat3.mulVec, intVec, Prod.mk.injEq]
    norm_num
  have h1 : symmetrise (id : ℚ → ℚ) [rotZ90] 2 fCex
      ((1 : ℤ), (0 : ℤ), (1 : ℤ)) = 1 := by
    rw [symmetrise_inside (id : ℚ → ℚ) [rotZ90] 2 fCex
      ((1 : ℤ), (0 : ℤ), (1 : ℤ)) fCex_hermitian (by decide)]
    simp only [matAll, List.map_cons, List.map_nil, List.sum_cons,
      List.sum_nil, add_zero, idMat_mulVec, e1,
      triSample_herm (id : ℚ → ℚ) fCex fCex_hermitian]
    norm_num [fCex]
  have h2 : symmetrise (id : ℚ → ℚ) [rotZ90] 2 fCex
      ((1 : ℤ), (1 : ℤ), (0 : ℤ)) = 0 := by
    rw [symmetrise_inside (id : ℚ → ℚ) [rotZ90] 2 fCex
      ((1 : ℤ), (1 : ℤ), (0 : ℤ)) fCex_hermitian (by decide)]
    simp only [matAll, List.map_cons, List.map_nil, List.sum_cons,
      List.sum_nil, add_zero, idMat_mulVec, e2,
      triSample_herm (id : ℚ → ℚ) fCex fCex_hermitian]
    norm_num [fCex]
  have hherm2 : ∀ q : Voxel,
      (id : ℚ → ℚ) (symmetrise (id : ℚ → ℚ) [rotZ90] 2 fCex (negV q))
        = symmetrise (id : ℚ → ℚ) [rotZ90] 2 fCex q :=
    symmetrise_hermitian (id : ℚ → ℚ) [rotZ90] 2 fCex (fun x y => rfl) rfl
      fCex_hermitian fCex_lattice
  have h3 : symmetrise (id : ℚ → ℚ) [rotZ90] 2
      (symmetrise id [rotZ90] 2 fCex) ((1 : ℤ), (0 : ℤ), (1 : ℤ)) = 1 := by
    rw [symmetrise_inside (id : ℚ → ℚ) [rotZ90] 2
      (symmetrise id [rotZ90] 2 fCex) ((1 : ℤ), (0 : ℤ), (1 : ℤ)) hherm2
      (by decide)]
    simp only [matAll, List.map_cons, List.map_nil, List.sum_cons,
      List.sum_nil, add_zero, idMat_mulVec, e1,
      triSample_herm (id : ℚ → ℚ) (symmetrise id [rotZ90] 2 fCex) hherm2]
    rw [h1, h2]
    norm_num
  have h4 : (([rotZ90] : List Mat3).length + 1)
      • symmetrise (id : ℚ → ℚ) [rotZ90] 2 fCex
          ((1 : ℤ), (0 : ℤ), (1 : ℤ)) = 2 := by
    rw [h1]
    simp
  rw [h3, h4]
  norm_num

/-- C4 amended: when every operator of `{I} ∪ S` maps lattice points to
lattice points, preserves the squared radius, and permutes the orbit lists
of `{I} ∪ S` (i.e. `{I} ∪ S` acts like a group), and the grid satisfies the
data model's invariants — conjugate symmetry under voxel negation
(Hermitian) and vanishing outside `rmax²` — applying `symmetrise` twice
equals applying it once and multiplying by `|S| + 1`. -/
theorem symmetrise_twice_group {α : Type} [AddCommMonoid α] [Module ℚ α]
    (conj : α → α) (S : List Mat3) (rmax2 : ℤ) (f : Voxel → α)
    (hadd : ∀ x y : α, conj (x + y) = conj x + conj y) (h0 : conj 0 = 0)
    (hherm : ∀ q : Voxel, conj (f (negV q)) = f q)
    (hlat : ∀ g ∈ matAll S, ∀ v : Voxel, ∃ w : Voxel,
      g.mulVec (intVec v) = intVec w)
    (hnorm : ∀ g ∈ matAll S, ∀ v w : Voxel,
      g.mulVec (intVec v) = intVec w → normSq w = normSq v)
    (hperm : ∀ g ∈ matAll S, ∀ v : Voxel,
      ((matAll S).map (fun h => h.mulVec (g.mulVec (intVec v)))).Perm
        ((matAll S).map (fun h => h.mulVec (intVec v))))
    (hsupp : ∀ v : Voxel, rmax2 < normSq v → f v = 0) (v : Voxel) :
    symmetrise conj S rmax2 (symmetrise conj S rmax2 f) v
      = (S.length + 1) • symmetrise conj S rmax2 f v := by
  have hherm2 : ∀ q : Voxel,
      conj (symmetrise conj S rmax2 f (negV q))
        = symmetrise conj S rmax2 f q :=
    symmetrise_hermitian conj S rmax2 f hadd h0 hherm hlat
  by_cases hin : normSq v ≤ rmax2
  · rw [symmetrise_inside conj S rmax2 (symmetrise conj S rmax2 f) v hherm2
      hin]
    have hterm : ∀ g ∈ matAll S,
        triSample conj (symmetrise conj S rmax2 f) (g.mulVec (intVec v))
          = ((matAll S).map
              (fun h => triSample conj f (h.mulVec (intVec v)))).sum := by
      intro g hg
      obtain ⟨w, hw⟩ := hlat g hg v
      have hwn : normSq w = normSq v := hnorm g hg v w hw
      have hwin : normSq w ≤ rmax2 := by rw [hwn]; exact hin
      rw [hw, triSample_lattice,
        foldRead_hermitian conj (symmetrise conj S rmax2 f) hherm2,
        symmetrise_inside conj S rmax2 f w hherm hwin]
      have hmaps :
          ((matAll S).map (fun h => h.mulVec (intVec w)))
            = ((matAll S).map (fun h => h.mulVec (g.mulVec (intVec v)))) := by
        rw [hw]
      have hp := hperm g hg v
      calc ((matAll S).map
            (fun h => triSample conj f (h.mulVec (intVec w)))).sum
          = (((matAll S).map (fun h => h.mulVec (intVec w))).map
              (triSample conj f)).sum := by
            rw [List.map_map]
            rfl
        _ = (((matAll S).map (fun h => h.mulVec (intVec v))).map
              (triSample conj f)).sum := by
            rw [hmaps]
            exact ((hp.map (triSample conj f)).sum_eq)
        _ = ((matAll S).map
              (fun h => triSample conj f (h.mulVec (intVec v)))).sum := by
            rw [List.map_map]
            rfl
    rw [List.map_congr_left hterm, sum_map_constant]
    rw [symmetrise_inside conj S rmax2 f v hherm hin]
    simp [matAll]
  · have hout : rmax2 < normSq v := lt_of_not_le hin
    have hf0 : f v = 0 := hsupp v hout
    have h1 : symmetrise conj S rmax2 f v = f v := by
      simp [symmetrise, if_neg hin]
    rw [show symmetrise conj S rmax2 (symmetrise conj S rmax2 f) v
        = symmetrise conj S rmax2 f v from by simp [symmetrise, if_neg hin]]
    rw [h1, hf0, smul_zero]

/-- The two-fold rotation about z, `(x, y, z) ↦ (−x, −y, z)`; together with
the identity it is closed under composition. -/
def rotZ180 : Mat3 := ⟨-1, 0, 0, 0, -1, 0, 0, 0, 1⟩

theorem rotZ180_invol (t : ℚ × ℚ × ℚ) :
    rotZ180.mulVec (rotZ180.mulVec t) = t := by
  obtain ⟨x, y, z⟩ := t
  simp only [rotZ180, Mat3.mulVec, Prod.mk.injEq]
  refine ⟨by ring, by ring, by ring⟩

/-- The Hermitian grid of the amended-claim witness: the indicator pair of
the voxels `(0, 0, 1)` and `(0, 0, −1)`. -/
def fPair : Voxel → ℚ := fun v =>
  if v = ((0 : ℤ), (0 : ℤ), (1 : ℤ)) ∨ v = ((0 : ℤ), (0 : ℤ), (-1 : ℤ))
  then 1 else 0

theorem fPair_hermitian (v : Voxel) :
    (id : ℚ → ℚ) (fPair (negV v)) = fPair v := by
  obtain ⟨a, b, c⟩ := v
  simp only [id_eq, fPair, negV]
  have hiff : ((-a, -b, -c) = ((0 : ℤ), (0 : ℤ), (1 : ℤ))
        ∨ (-a, -b, -c) = ((0 : ℤ), (0 : ℤ), (-1 : ℤ)))
      ↔ ((a, b, c) = ((0 : ℤ), (0 : ℤ), (1 : ℤ))
        ∨ (a, b, c) = ((0 : ℤ), (0 : ℤ), (-1 : ℤ))) := by
    simp only [Prod.mk.injEq]
    omega
  rw [if_congr hiff rfl rfl]

/-- Witness for the amended C4: the two-element group `{I, rotZ180}` on the
Hermitian indicator pair at voxel `(0, 0, 1)` inside `rmax² = 2`. -/
theorem symmetrise_twice_group_witness :
    symmetrise (id : ℚ → ℚ) [rotZ180] 2 (symmetrise id [rotZ180] 2 fPair)
        ((0 : ℤ), (0 : ℤ), (1 : ℤ))
      = (([rotZ180] : List Mat3).length + 1)
        • symmetrise (id : ℚ → ℚ) [rotZ180] 2 fPair
            ((0 : ℤ), (0 : ℤ), (1 : ℤ)) := by
  have hmem : ∀ g ∈ matAll [rotZ180], g = idMat ∨ g = rotZ180 := by
    intro g hg
    simpa [matAll] using hg
  have hneg : ∀ v : Voxel,
      rotZ180.mulVec (intVec v) = intVec (v.1, -v.2.1, -v.2.2) := by
    intro v
    simp only [rotZ180, Mat3.mulVec, intVec, Prod.mk.injEq]
    refine ⟨by push_cast; ring, by push_cast; ring, by ring⟩
  apply symmetrise_twice_group
  · intro x y
    rfl
  · rfl
  · exact fPair_hermitian
  · intro g hg v
    rcases hmem g hg with h | h
    · exact ⟨v, by rw [h, idMat_mulVec]⟩
    · exact ⟨(v.1, -v.2.1, -v.2.2), by rw [h, hneg]⟩
  · intro g hg v w hw
    have hinj : ∀ a b : Voxel, intVec a = intVec b → a = b := by
      intro a b hab
      simp only [intVec, Prod.mk.injEq] at hab
      obtain ⟨h1, h2, h3⟩ := hab
      refine Prod.ext_iff.mpr ⟨?_, Prod.ext_iff.mpr ⟨?_, ?_⟩⟩
      · exact_mod_cast h3
      · exact_mod_cast h2
      · exact_mod_cast h1
    rcases hmem g hg with h | h
    · rw [h, idMat_mulVec] at hw
      rw [hinj v w hw]
    · rw [h, hneg] at hw
      rw [← hinj _ _ hw]
      simp only [normSq]
      ring
  · intro g hg v
    rcases hmem g hg with h | h
    · rw [h, idMat_mulVec]
    · rw [h]
      have hrw : ((matAll [rotZ180]).map
          (fun h => h.mulVec (rotZ180.mulVec (intVec v))))
            = [rotZ180.mulVec (intVec v), intVec v] := by
        simp [matAll, idMat_mulVec, rotZ180_invol]
      have hrw2 : ((matAll [rotZ180]).map (fun h => h.mulVec (intVec v)))
            = [intVec v, rotZ180.mulVec (intVec v)] := by
        simp [matAll, idMat_mulVec]
      rw [hrw, hrw2]
      exact List.Perm.swap (intVec v) (rotZ180.mulVec (intVec v)) []
  · intro v hv
    by_cases h1 : v = ((0 : ℤ), (0 : ℤ), (1 : ℤ))
    · subst h1
      norm_num [normSq] at hv
    · by_cases h2 : v = ((0 : ℤ), (0 : ℤ), (-1 : ℤ))
      · subst h2
        norm_num [normSq] at hv
      · simp [fPair, h1, h2]

/-- Hermitian fold of a target grid point: when its x (`jp`) coordinate is
negative, replace the point by `(−kp, −ip, −jp)` and flag the value for
conjugation. -/
def foldPoint (q : Voxel) : Voxel × Bool :=
  if q.2.2 < 0 then ((-q.1, -q.2.1, -q.2.2), true) else (q, false)

/-- Conjugate a complex value when the fold flag is set. -/
def condConj (b : Bool) (z : Cq) : Cq := if b then Cq.conj z else z

/-- Modelled from the spec: the TRILINEAR splat, as a list of
`(target voxel, coefficient, fold flag)` triples over the 8 grid points
surrounding the target `t` (in `(x, y, z)` order), each corner folded into
the half-space when its x coordinate is negative. -/
def triSplat (t : ℚ × ℚ × ℚ) : List (Voxel × ℚ × Bool) :=
  let x0 : ℤ := ⌊t.1⌋
  let fx : ℚ := t.1 - x0
  let y0 : ℤ := ⌊t.2.1⌋
  let fy : ℚ := t.2.1 - y0
  let z0 : ℤ := ⌊t.2.2⌋
  let fz : ℚ := t.2.2 - z0
  triCorners.map (fun c =>
    let fp := foldPoint (z0 + c.2.2, y0 + c.2.1, x0 + c.1)
    (fp.1, cw c.1 fx * cw c.2.1 fy * cw c.2.2 fz, fp.2))

/-- Modelled from the spec: the NEAREST splat, rounding the target to the
nearest grid point and folding into the half-space when needed. -/
def nnSplat (t : ℚ × ℚ × ℚ) : List (Voxel × ℚ × Bool) :=
  let fp := foldPoint (round t.2.2, round t.2.1, round t.1)
  [(fp.1, 1, fp.2)]

/-- The insertion parameters shared by one `backproject` call. -/
structure InsertParams : Type where
  r_max : ℤ
  padding_factor : ℤ
  r_min_nn : ℤ
  interpolator : Interp
  A : Mat3
  inv : Bool

/-- Modelled from the spec: the per-pixel splat of `backproject` (only
declared in the header).  A source pixel `p = (ip, jp)` with logical
frequency `(jp, ip, 0)` is skipped beyond the source Nyquist cutoff
`r_max / padding_factor`; otherwise the target is
`padding_factor · A · (jp, ip, 0)ᵀ` (with `A⁻¹` when `inv`), splatted with
NEAREST below `r_min_nn` and otherwise with the configured interpolator. -/
def pixelSplat (P : InsertParams) (p : ℤ × ℤ) : List (Voxel × ℚ × Bool) :=
  if ((p.1 * p.1 + p.2 * p.2 : ℤ) : ℚ)
      > ((P.r_max : ℚ) / (P.padding_factor : ℚ)) ^ 2 then []
  else
    let Aeff := if P.inv then P.A.inv else P.A
    let t := Aeff.mulVec ((p.2 : ℚ), (p.1 : ℚ), 0)
    let ft := ((P.padding_factor : ℚ) * t.1, (P.padding_factor : ℚ) * t.2.1,
      (P.padding_factor : ℚ) * t.2.2)
    if p.1 * p.1 + p.2 * p.2 < P.r_min_nn * P.r_min_nn then nnSplat ft
    else
      match P.interpolator with
      | Interp.NEAREST => nnSplat ft
      | Interp.TRILINEAR => triSplat ft

/-- The per-pixel contribution weight: `Mw[p]` when a weight map is
supplied, else 1. -/
def weightOf (Mw : Option ((ℤ × ℤ) → ℚ)) (p : ℤ × ℤ) : ℚ :=
  match Mw with
  | some w => w p
  | none => 1

/-- Modelled from the spec: the effect of one `backproject` call on the data
grid.  Every source pixel splats `Fin[p] · w` (conjugated on folded
targets) into the grid through its splat list; accumulation is commutative
addition, so the result is the initial grid plus the sum of all
contributions. -/
def backprojectData (P : InsertParams) (pixels : List (ℤ × ℤ))
    (F : (ℤ × ℤ) → Cq) (Mw : Option ((ℤ × ℤ) → ℚ)) (D0 : Voxel → Cq) :
    Voxel → Cq :=
  fun v => D0 v + (pixels.map (fun p =>
    ((pixelSplat P p).map (fun s =>
      if s.1 = v then s.2.1 • condConj s.2.2 (weightOf Mw p • F p)
      else 0)).sum)).sum

/-- Modelled from the spec: the effect of one `backproject` call on the
weight grid: every source pixel splats its contribution weight `w`. -/
def backprojectWeight (P : InsertParams) (pixels : List (ℤ × ℤ))
    (Mw : Option ((ℤ × ℤ) → ℚ)) (W0 : Voxel → ℚ) : Voxel → ℚ :=
  fun v => W0 v + (pixels.map (fun p =>
    ((pixelSplat P p).map (fun s =>
      if s.1 = v then s.2.1 * weightOf Mw p else 0)).sum)).sum

/-- Parameters of the additivity counterexample: nearest-neighbour
interpolation, identity orientation, no padding. -/
def cexParams : InsertParams := ⟨2, 1, 0, Interp.NEAREST, idMat, false⟩

/-- The single source pixel `(ip, jp) = (0, 1)` of the counterexample. -/
def cexPixels : List (ℤ × ℤ) := [(0, 1)]

/-- Constant source image `F ≡ 1`. -/
def cexF : (ℤ × ℤ) → Cq := fun _ => (1, 0)

/-- Constant weight map `w ≡ 1`. -/
def cexW : (ℤ × ℤ) → ℚ := fun _ => 1

theorem cexParams_splat :
    pixelSplat cexParams ((0 : ℤ), (1 : ℤ))
      = [(((0 : ℤ), (0 : ℤ), (1 : ℤ)), (1 : ℚ), false)] := by
  norm_num [cexParams, pixelSplat, nnSplat, foldPoint, Mat3.mulVec, idMat]

/-- Counterexample to C5 as stated: with the identity orientation, pixel
`(0, 1)`, `F₁ = F₂ ≡ 1` and `w₁ = w₂ ≡ 1`, the two successive insertions
leave 2 at voxel `(0, 0, 1)` of the data grid, while the single insertion of
`(w₁F₁ + w₂F₂, A)` with weight map `w₁ + w₂` leaves 4 there (the splatted
value `Fin[p]·w` doubles twice). -/
theorem backproject_additivity_counterexample :
    backprojectData cexParams cexPixels cexF (some cexW)
        (backprojectData cexParams cexPixels cexF (some cexW) zeroDataGrid)
        ((0 : ℤ), (0 : ℤ), (1 : ℤ))
      ≠ backprojectData cexParams cexPixels
          (fun p => cexW p • cexF p + cexW p • cexF p)
          (some (fun p => cexW p + cexW p)) zeroDataGrid
          ((0 : ℤ), (0 : ℤ), (1 : ℤ)) := by
  simp only [backprojectData, cexPixels, List.map_cons, List.map_nil,
    List.sum_cons, List.sum_nil, cexParams_splat, if_pos rfl, add_zero,
    weightOf, cexF, cexW, condConj, zeroDataGrid]
  norm_num [Prod.ext_iff, Cq.conj]

theorem listSumMapAdd {α β : Type} [AddCommMonoid α] (l : List β)
    (f g : β → α) :
    (l.map (fun b => f b + g b)).sum = (l.map f).sum + (l.map g).sum := by
  induction l with
  | nil => simp
  | cons b t ih => simp [ih, add_add_add_comm]

theorem condConj_add (b : Bool) (x y : Cq) :
    condConj b (x + y) = condConj b x + condConj b y := by
  cases b
  · simp [condConj]
  · simp [condConj, Cq.conj, Prod.ext_iff, neg_add, add_comm]

/-- C5 amended: two successive insertions `(F₁, A, w₁)` then `(F₂, A, w₂)`
equal the single insertion of the weighted mean
`(w₁F₁ + w₂F₂) / (w₁ + w₂)` with weight map `w₁ + w₂`, wherever
`w₁ + w₂` vanishes on no participating pixel; the weight grids agree
unconditionally. -/
theorem backproject_additivity_amended (P : InsertParams)
    (pixels : List (ℤ × ℤ)) (F1 F2 : (ℤ × ℤ) → Cq) (w1 w2 : (ℤ × ℤ) → ℚ)
    (D0 : Voxel → Cq) (W0 : Voxel → ℚ)
    (hw : ∀ p ∈ pixels, w1 p + w2 p ≠ 0) (v : Voxel) :
    backprojectData P pixels F2 (some w2)
        (backprojectData P pixels F1 (some w1) D0) v
      = backprojectData P pixels
          (fun p => (w1 p + w2 p)⁻¹ • (w1 p • F1 p + w2 p • F2 p))
          (some (fun p => w1 p + w2 p)) D0 v
    ∧ backprojectWeight P pixels (some w2)
        (backprojectWeight P pixels (some w1) W0) v
      = backprojectWeight P pixels (some (fun p => w1 p + w2 p)) W0 v := by
  constructor
  · simp only [backprojectData]
    rw [add_right_comm, add_assoc, ← listSumMapAdd]
    congr 1
    refine congrArg List.sum (List.map_congr_left ?_)
    intro p hp
    rw [← listSumMapAdd]
    refine congrArg List.sum (List.map_congr_left ?_)
    intro s _
    by_cases hsv : s.1 = v
    · simp only [if_pos hsv, weightOf]
      have hmean : (w1 p + w2 p) • ((w1 p + w2 p)⁻¹
          • (w1 p • F1 p + w2 p • F2 p)) = w1 p • F1 p + w2 p • F2 p :=
        smul_inv_smul₀ (hw p hp) _
      rw [hmean, condConj_add, smul_add]
      abel
    · simp [if_neg hsv]
  · simp only [backprojectWeight]
    rw [add_right_comm, add_assoc, ← listSumMapAdd]
    congr 1
    refine congrArg List.sum (List.map_congr_left ?_)
    intro p _
    rw [← listSumMapAdd]
    refine congrArg List.sum (List.map_congr_left ?_)
    intro s _
    by_cases hsv : s.1 = v
    · simp only [if_pos hsv, weightOf]
      ring
    · simp [if_neg hsv]

/-- Witness for the amended C5 at the counterexample's parameters: the
nonvanishing hypothesis holds for `w₁ = w₂ ≡ 1` and the two grids agree at
voxel `(0, 0, 1)`. -/
theorem backproject_additivity_amended_witness :
    (∀ p ∈ cexPixels, cexW p + cexW p ≠ 0)
      ∧ backprojectData cexParams cexPixels cexF (some cexW)
          (backprojectData cexParams cexPixels cexF (some cexW) zeroDataGrid)
          ((0 : ℤ), (0 : ℤ), (1 : ℤ))
        = backprojectData cexParams cexPixels
            (fun p => (cexW p + cexW p)⁻¹ • (cexW p • cexF p + cexW p • cexF p))
            (some (fun p => cexW p + cexW p)) zeroDataGrid
            ((0 : ℤ), (0 : ℤ), (1 : ℤ))
      ∧ backprojectWeight cexParams cexPixels (some cexW)
          (backprojectWeight cexParams cexPixels (some cexW) zeroWeightGrid)
          ((0 : ℤ), (0 : ℤ), (1 : ℤ))
        = backprojectWeight cexParams cexPixels
            (some (fun p => cexW p + cexW p)) zeroWeightGrid
            ((0 : ℤ), (0 : ℤ), (1 : ℤ)) := by
  have hw : ∀ p ∈ cexPixels, cexW p + cexW p ≠ 0 := by
    intro p _
    norm_num [cexW]
  have h := backproject_additivity_amended cexParams cexPixels cexF cexF
    cexW cexW zeroDataGrid zeroWeightGrid hw ((0 : ℤ), (0 : ℤ), (1 : ℤ))
  exact ⟨hw, h.1, h.2⟩
